import Mathlib

/-!
# Verification of the shared OpenType layout-table parsers

A shallow embedding of `src/ggg.rs` and `src/tables/gsub.rs` of the
`ttf-parser` fork under verification.  Byte buffers are modelled as
`List Nat` (each entry one byte, big-endian multi-byte fields).  Rust
functions returning `Option<T>` become Lean functions returning
`Option T`; a Rust panic (`unwrap` of `None`) is modelled by `none` of
an outer `Option` layer where it can occur.

The low-level byte cursor (`Stream`, `LazyArray16`, `LazyArray32`,
`FromData`, optional `Offset16` decoding) lives in the crate's
`parser` module, which is not part of the provided sources; those
primitives are modelled from the specification of the external reader:
a bounds-checked cursor that reads one fixed-width big-endian value or
a lazily indexed array of `N` fixed-size values, failing softly (with
`none`) if the buffer is too short, offsets of value zero decoding to
"absent".
-/

namespace TtfParser

set_option autoImplicit false

/-- Modelled from the spec: the external reader's bounds-checked read of a
big-endian 16-bit value at byte offset `off` (`Stream::read::<u16>`,
`u16::parse`); fails with `none` if fewer than two bytes remain. -/
def readU16 (data : List Nat) (off : Nat) : Option Nat :=
  match data.drop off with
  | b0 :: b1 :: _ => some (b0 * 256 + b1)
  | _ => none

/-- Modelled from the spec: the external reader's bounds-checked read of a
big-endian 32-bit value at byte offset `off` (`Stream::read::<u32>`,
`u32::parse`); fails with `none` if fewer than four bytes remain. -/
def readU32 (data : List Nat) (off : Nat) : Option Nat :=
  match data.drop off with
  | b0 :: b1 :: b2 :: b3 :: _ =>
    some (((b0 * 256 + b1) * 256 + b2) * 256 + b3)
  | _ => none

/-- Modelled from the spec: the external reader's bounds-checked slice of
`len` bytes starting at `off` (`Stream::read_bytes`, backing
`read_array16`/`read_array32`); fails with `none` if the declared length
exceeds the remaining buffer. -/
def readBytes (data : List Nat) (off len : Nat) : Option (List Nat) :=
  if off + len ≤ data.length then some ((data.drop off).take len) else none

/-- Modelled from the spec: Rust's `data.get(off..)` used for offset
resolution — the suffix of the buffer from byte `off`, or `none` when the
offset points past the end of the buffer. -/
def sliceFrom (data : List Nat) (off : Nat) : Option (List Nat) :=
  if off ≤ data.length then some (data.drop off) else none

/-- Modelled from the spec: decoding of `Option<Offset16>` — a 16-bit
offset whose zero value conventionally means "absent" and is decoded to
`none` at parse time. -/
def readOptOffset16 (data : List Nat) (off : Nat) : Option (Option Nat) :=
  (readU16 data off).map (fun v => if v = 0 then none else some v)

/-- Decode a byte list into big-endian 16-bit values, two bytes per
element (the element view of a `LazyArray16` of `u16`-sized items, whose
per-index parse always succeeds on its exact 2-byte slice). -/
def decodeU16List : List Nat → List Nat
  | b0 :: b1 :: rest => (b0 * 256 + b1) :: decodeU16List rest
  | _ => []

/-- Modelled from the spec: `Stream::read_array16::<T>` for a 2-byte `T` —
consumes exactly `2 * count` bytes as the array's backing slice (failing
softly when the buffer is too short) and exposes its decoded elements. -/
def readArrayU16 (data : List Nat) (off count : Nat) : Option (List Nat) :=
  (readBytes data off (2 * count)).map decodeU16List

/-- Modelled from the spec: the loop of `LazyArray16::binary_search_by`
over a sorted array — `base`/`size` bisection, comparing the element at
the probe index against `key`; a failed element access aborts with
`none`, otherwise the result is the index of a matching element. -/
def binarySearchStep (arr : List Nat) (key : Nat) (base size : Nat) :
    Option Nat :=
  if _h : 1 < size then
    let half := size / 2
    let mid := base + half
    match arr.get? mid with
    | none => none
    | some v =>
      if key < v then binarySearchStep arr key base (size - half)
      else binarySearchStep arr key mid (size - half)
  else
    match arr.get? base with
    | none => none
    | some v => if v = key then some base else none
termination_by size
decreasing_by
  all_goals
    have h2 : 0 < size / 2 := Nat.div_pos (by omega) (by omega)
    omega

/-- Modelled from the spec: `LazyArray16::binary_search(key).is_some()` —
an empty array yields `false`, otherwise the bisection loop runs over the
whole array. -/
def binarySearch (arr : List Nat) (key : Nat) : Bool :=
  if arr.length = 0 then false
  else (binarySearchStep arr key 0 arr.length).isSome

/-- `RangeRecord` (ggg.rs): a contiguous glyph-id interval mapped to one
16-bit value; 6 bytes on the wire. -/
structure RangeRecord where
  start_glyph_id : Nat
  end_glyph_id : Nat
  value : Nat
deriving DecidableEq, Repr

/-- Element decoding of a `LazyArray16<RangeRecord>`: each record is
parsed from its exact 6-byte chunk (`RangeRecord::parse`: start(2),
end(2), value(2), all succeeding on a 6-byte slice). -/
def decodeRangeRecords : List Nat → List RangeRecord
  | b0 :: b1 :: b2 :: b3 :: b4 :: b5 :: rest =>
    ⟨b0 * 256 + b1, b2 * 256 + b3, b4 * 256 + b5⟩ :: decodeRangeRecords rest
  | _ => []

/-- `Stream::read_array16::<RangeRecord>` — consumes exactly `6 * count`
bytes (failing softly when the buffer is too short) and exposes the
decoded records. -/
def readArrayRangeRecords (data : List Nat) (off count : Nat) :
    Option (List RangeRecord) :=
  (readBytes data off (6 * count)).map decodeRangeRecords

/-- Whether a `RangeRecord`'s inclusive range contains a glyph id
(`RangeRecord::range().contains`, i.e. `start ≤ g && g ≤ end`). -/
def RangeRecord.containsGlyph (r : RangeRecord) (glyph : Nat) : Bool :=
  decide (r.start_glyph_id ≤ glyph) && decide (glyph ≤ r.end_glyph_id)

/-- `CoverageTable::contains` (ggg.rs).  The outer `Option` models
partiality of the Rust function: `some b` is a normal return of `b`,
`none` models the panic of the `.unwrap()` in the format-1 branch when
`read_array16` fails on a truncated buffer. -/
def CoverageTable.contains (data : List Nat) (glyph : Nat) : Option Bool :=
  match readU16 data 0 with
  | none => some false
  | some format =>
    if format = 1 then
      match readU16 data 2 with
      | none => some false
      | some count =>
        match readArrayU16 data 4 count with
        | none => none
        | some glyphs => some (binarySearch glyphs glyph)
    else if format = 2 then
      match readU16 data 2 with
      | none => some false
      | some count =>
        match readArrayRangeRecords data 4 count with
        | none => some false
        | some records => some (records.any (fun r => r.containsGlyph glyph))
    else some false

/-- `ClassDefinitionTable::get_impl` (ggg.rs): the fallible class lookup.
Format 1 guards `glyph_id < start_glyph_id` before the unsigned
subtraction; format 2 takes the value of the first matching range;
unknown formats yield `none`. -/
def ClassDefinitionTable.getImpl (data : List Nat) (glyph : Nat) :
    Option Nat :=
  match readU16 data 0 with
  | none => none
  | some format =>
    if format = 1 then
      match readU16 data 2 with
      | none => none
      | some start_glyph_id =>
        if glyph < start_glyph_id then none
        else
          match readU16 data 4 with
          | none => none
          | some count =>
            match readArrayU16 data 6 count with
            | none => none
            | some classes => classes.get? (glyph - start_glyph_id)
    else if format = 2 then
      match readU16 data 2 with
      | none => none
      | some count =>
        match readArrayRangeRecords data 4 count with
        | none => none
        | some records =>
          (records.find? (fun r => r.containsGlyph glyph)).map
            (fun r => r.value)
    else none

/-- `ClassDefinitionTable::get` (ggg.rs): the public total lookup,
substituting `Class(0)` for any structural or lookup failure. -/
def ClassDefinitionTable.get (data : List Nat) (glyph : Nat) : Nat :=
  (ClassDefinitionTable.getImpl data glyph).getD 0

/-- Big-endian encoding of one 16-bit value, the inverse of the reader's
2-byte decode; used to state theorems about well-formed tables. -/
def encodeU16 (n : Nat) : List Nat :=
  [n / 256, n % 256]

/-- Big-endian encoding of a list of 16-bit values. -/
def encodeU16List : List Nat → List Nat
  | [] => []
  | a :: rest => encodeU16 a ++ encodeU16List rest

/-- Wire encoding of one `RangeRecord` (6 bytes). -/
def encodeRangeRecord (r : RangeRecord) : List Nat :=
  encodeU16 r.start_glyph_id ++ encodeU16 r.end_glyph_id ++
    encodeU16 r.value

/-- Wire encoding of a `RangeRecord` array. -/
def encodeRangeRecords : List RangeRecord → List Nat
  | [] => []
  | r :: rest => encodeRangeRecord r ++ encodeRangeRecords rest

theorem encodeU16List_length (A : List Nat) :
    (encodeU16List A).length = 2 * A.length := by
  induction A with
  | nil => rfl
  | cons a rest ih => simp [encodeU16List, encodeU16, ih]; omega

theorem decodeU16List_encodeU16List (A : List Nat) :
    decodeU16List (encodeU16List A) = A := by
  induction A with
  | nil => rfl
  | cons a rest ih =>
    simp [encodeU16List, encodeU16, decodeU16List, ih]
    omega

theorem encodeRangeRecords_length (R : List RangeRecord) :
    (encodeRangeRecords R).length = 6 * R.length := by
  induction R with
  | nil => rfl
  | cons r rest ih =>
    simp [encodeRangeRecords, encodeRangeRecord, encodeU16, ih]
    omega

theorem decodeRangeRecords_encodeRangeRecords (R : List RangeRecord) :
    decodeRangeRecords (encodeRangeRecords R) = R := by
  induction R with
  | nil => rfl
  | cons r rest ih =>
    simp [encodeRangeRecords, encodeRangeRecord, encodeU16,
      decodeRangeRecords, ih]
    cases r
    simp only [RangeRecord.mk.injEq]
    refine ⟨by omega, by omega, by omega⟩

/-- `ScriptRecord` (ggg.rs): a 4-byte tag plus a 16-bit offset to a
`Script` table; 6 bytes on the wire. -/
structure ScriptRecord where
  script_tag : Nat
  script_offset : Nat
deriving DecidableEq, Repr

/-- Element decoding of a `LazyArray16<ScriptRecord>`: `ScriptRecord::parse`
reads tag(4) then offset(2) from the exact 6-byte chunk. -/
def decodeScriptRecords : List Nat → List ScriptRecord
  | b0 :: b1 :: b2 :: b3 :: b4 :: b5 :: rest =>
    ⟨((b0 * 256 + b1) * 256 + b2) * 256 + b3, b4 * 256 + b5⟩ ::
      decodeScriptRecords rest
  | _ => []

/-- `ScriptListTable` (ggg.rs): the retained slice plus the decoded
count-prefixed record array. -/
structure ScriptListTable where
  data : List Nat
  script_records : List ScriptRecord
deriving DecidableEq, Repr

/-- `ScriptListTable::parse` (ggg.rs): count(2) then a record array of
`6 * count` bytes, failing when the buffer is too short. -/
def ScriptListTable.parse (data : List Nat) : Option ScriptListTable :=
  match readU16 data 0 with
  | none => none
  | some count =>
    match readBytes data 2 (6 * count) with
    | none => none
    | some bytes => some ⟨data, decodeScriptRecords bytes⟩

/-- `FeatureRecord` (ggg.rs): a 4-byte tag plus a 16-bit offset to a
`FeatureTable`; 6 bytes on the wire. -/
structure FeatureRecord where
  feature_tag : Nat
  feature_offset : Nat
deriving DecidableEq, Repr

/-- Element decoding of a `LazyArray16<FeatureRecord>`: tag(4) then
offset(2) from the exact 6-byte chunk. -/
def decodeFeatureRecords : List Nat → List FeatureRecord
  | b0 :: b1 :: b2 :: b3 :: b4 :: b5 :: rest =>
    ⟨((b0 * 256 + b1) * 256 + b2) * 256 + b3, b4 * 256 + b5⟩ ::
      decodeFeatureRecords rest
  | _ => []

/-- `FeatureListTable` (ggg.rs): the decoded count-prefixed record
array. -/
structure FeatureListTable where
  feature_records : List FeatureRecord
deriving DecidableEq, Repr

/-- `FeatureListTable::parse` (ggg.rs): count(2) then a record array of
`6 * count` bytes. -/
def FeatureListTable.parse (data : List Nat) : Option FeatureListTable :=
  match readU16 data 0 with
  | none => none
  | some count =>
    match readBytes data 2 (6 * count) with
    | none => none
    | some bytes => some ⟨decodeFeatureRecords bytes⟩

/-- `LangSysTable` (ggg.rs): optional required-feature index (0xFFFF on
the wire means absent) plus the feature-index array. -/
structure LangSysTable where
  required_feature_index : Option Nat
  feature_indices : List Nat
deriving DecidableEq, Repr

/-- `LangSysTable::parse` (ggg.rs): the reserved lookup-order offset is
read as `Option<Offset16>` (zero decodes to absent) and must be absent —
any non-zero value rejects the whole table; then
required_feature_index(2, 0xFFFF maps to absent), count(2) and the
feature-index array of `2 * count` bytes. -/
def LangSysTable.parse (data : List Nat) : Option LangSysTable :=
  match readOptOffset16 data 0 with
  | none => none
  | some lookup_order_offset =>
    if lookup_order_offset.isSome then none
    else
      match readU16 data 2 with
      | none => none
      | some idx =>
        let required_feature_index :=
          if idx = 0xFFFF then none else some idx
        match readU16 data 4 with
        | none => none
        | some count =>
          match readArrayU16 data 6 count with
          | none => none
          | some feature_indices =>
            some ⟨required_feature_index, feature_indices⟩

/-- `LookupListTable` (ggg.rs): the count-prefixed array of 16-bit
offsets to `LookupTable`s. -/
structure LookupListTable where
  lookup_offsets : List Nat
deriving DecidableEq, Repr

/-- `LookupListTable::parse` (ggg.rs): count(2) then an offset array of
`2 * count` bytes. -/
def LookupListTable.parse (data : List Nat) : Option LookupListTable :=
  match readU16 data 0 with
  | none => none
  | some count =>
    match readArrayU16 data 2 count with
    | none => none
    | some lookup_offsets => some ⟨lookup_offsets⟩

/-- `LookupTable` (ggg.rs): one lookup's metadata. -/
structure LookupTable where
  lookup_type : Nat
  lookup_flag : Nat
  subtable_offsets : List Nat
  mark_filtering_set : Nat
deriving DecidableEq, Repr

/-- `LookupTable::parse` (ggg.rs): lookup_type(2), lookup_flag(2),
count(2), subtable offset array(2 * count), then mark_filtering_set(2)
read unconditionally after the array. -/
def LookupTable.parse (data : List Nat) : Option LookupTable :=
  match readU16 data 0 with
  | none => none
  | some lookup_type =>
    match readU16 data 2 with
    | none => none
    | some lookup_flag =>
      match readU16 data 4 with
      | none => none
      | some count =>
        match readArrayU16 data 6 count with
        | none => none
        | some subtable_offsets =>
          match readU16 data (6 + 2 * count) with
          | none => none
          | some mark_filtering_set =>
            some ⟨lookup_type, lookup_flag, subtable_offsets,
              mark_filtering_set⟩

/-- `FeatureVariationRecord` (ggg.rs): two 32-bit offsets (condition set,
feature-table substitution). -/
structure FeatureVariationRecord where
  condition_set_offset : Nat
  feature_table_substitution_offset : Nat
deriving DecidableEq, Repr

/-- `FeatureVariationRecord::parse` (ggg.rs): reads condition_set_offset
as a 32-bit value at byte 0 and feature_table_substitution_offset as a
32-bit value at byte 4 of the slice handed to it, failing when the slice
is too short. -/
def FeatureVariationRecord.parse (data : List Nat) :
    Option FeatureVariationRecord :=
  match readU32 data 0 with
  | none => none
  | some condition_set_offset =>
    match readU32 data 4 with
    | none => none
    | some feature_table_substitution_offset =>
      some ⟨condition_set_offset, feature_table_substitution_offset⟩

/-- The declared `FromData::SIZE` of `FeatureVariationRecord` in ggg.rs.
The source declares `const SIZE: usize = 6`. -/
def FeatureVariationRecord.SIZE : Nat := 6

/-- `FeatureVariations` (ggg.rs): the backing byte slice of the
`LazyArray32<FeatureVariationRecord>` (whose stride is
`FeatureVariationRecord.SIZE`). -/
structure FeatureVariations where
  recordData : List Nat
deriving DecidableEq, Repr

/-- `FeatureVariations::parse` (ggg.rs): version(4) gated to exactly
0x00010000, count(4), then `read_array32` consumes
`FeatureVariationRecord.SIZE * count` bytes as the record array's
backing slice. -/
def FeatureVariations.parse (data : List Nat) : Option FeatureVariations :=
  match readU32 data 0 with
  | none => none
  | some version =>
    if version ≠ 0x00010000 then none
    else
      match readU32 data 4 with
      | none => none
      | some count =>
        match readBytes data 8 (FeatureVariationRecord.SIZE * count) with
        | none => none
        | some bytes => some ⟨bytes⟩

/-- Modelled from the spec: `LazyArray32::get` — for an in-bounds index
the element is parsed from its exact `SIZE`-byte slice of the backing
data; out-of-bounds indices yield `none`. -/
def FeatureVariations.get (fv : FeatureVariations) (i : Nat) :
    Option FeatureVariationRecord :=
  if i < fv.recordData.length / FeatureVariationRecord.SIZE then
    FeatureVariationRecord.parse
      ((fv.recordData.drop (FeatureVariationRecord.SIZE * i)).take
        FeatureVariationRecord.SIZE)
  else none

namespace Gsub

/-- `Table` (tables/gsub.rs): the fully resolved root aggregate (with the
`variable-fonts` feature enabled, so the optional feature-variations
component is present in the model). -/
structure Table where
  script_list_table : ScriptListTable
  feature_list_table : FeatureListTable
  lookup_list_table : LookupListTable
  feature_variations : Option FeatureVariations
deriving DecidableEq, Repr

/-- `Table::parse` (tables/gsub.rs): version(4) gated to 0x00010000 or
0x00010001; three mandatory 16-bit offsets; for version > 0x00010000 an
additional optional 16-bit feature-variations offset (zero decodes to
absent) — for the base version those bytes are not read at all.  Each
offset is resolved by `data.get(offset..)` and delegated to the
corresponding sub-parser; any failure aborts the whole parse. -/
def Table.parse (data : List Nat) : Option Table :=
  match readU32 data 0 with
  | none => none
  | some version =>
    if ¬(version = 0x00010000 ∨ version = 0x00010001) then none
    else
      match readU16 data 4 with
      | none => none
      | some script_list_offset =>
        match readU16 data 6 with
        | none => none
        | some feature_list_offset =>
          match readU16 data 8 with
          | none => none
          | some lookup_list_offset =>
            match
              (if version > 0x00010000 then readOptOffset16 data 10
               else some none) with
            | none => none
            | some feature_variations_offset =>
              match sliceFrom data script_list_offset with
              | none => none
              | some d1 =>
                match ScriptListTable.parse d1 with
                | none => none
                | some script_list_table =>
                  match sliceFrom data feature_list_offset with
                  | none => none
                  | some d2 =>
                    match FeatureListTable.parse d2 with
                    | none => none
                    | some feature_list_table =>
                      match sliceFrom data lookup_list_offset with
                      | none => none
                      | some d3 =>
                        match LookupListTable.parse d3 with
                        | none => none
                        | some lookup_list_table =>
                          match feature_variations_offset with
                          | some off =>
                            match sliceFrom data off with
                            | none => none
                            | some d4 =>
                              match FeatureVariations.parse d4 with
                              | none => none
                              | some fv =>
                                some ⟨script_list_table,
                                  feature_list_table, lookup_list_table,
                                  some fv⟩
                          | none =>
                            some ⟨script_list_table, feature_list_table,
                              lookup_list_table, none⟩

end Gsub

theorem readU16_isSome_iff (data : List Nat) (off : Nat) :
    (readU16 data off).isSome ↔ off + 2 ≤ data.length := by
  have hlen : (data.drop off).length = data.length - off :=
    List.length_drop off data
  unfold readU16
  rcases h : data.drop off with _ | ⟨b0, _ | ⟨b1, rest⟩⟩ <;>
    rw [h] at hlen <;> simp_all <;> omega

theorem readU16_eq_none_iff (data : List Nat) (off : Nat) :
    readU16 data off = none ↔ data.length < off + 2 := by
  rw [← Option.not_isSome_iff_eq_none, readU16_isSome_iff]
  omega

/-- C1: refuted as stated — in the format-1 branch of
`CoverageTable::contains` a truncated buffer does not yield `false`: the
`.unwrap()` on the failed `read_array16` panics (modelled as `none`).
The four bytes `[0, 1, 0, 1]` declare format 1 with glyph count 1 but
carry no glyph bytes, so the array read fails and the unwrap panics,
while the same truncation under format 2 (`[0, 2, 0, 1]`) is absorbed to
`false` as the claim describes. -/
theorem coverage_contains_panics_on_truncated_format1 :
    CoverageTable.contains [0, 1, 0, 1] 0 = none ∧
    CoverageTable.contains [0, 2, 0, 1] 0 = some false := by
  constructor <;> rfl

/-- C2: refuted as stated — `FeatureVariationRecord` declares
`FromData::SIZE = 6`, so `FeatureVariations::parse` consumes only
`6 × count` bytes for the record array, not `8 × count`: on a 16-byte
buffer with version 0x00010000 and count 1 the backing slice retains
just 6 bytes, and decoding record 0 fails outright because
`FeatureVariationRecord::parse` needs 8 bytes from its 6-byte slice. -/
theorem featureVariationRecord_size_six_bug :
    FeatureVariationRecord.SIZE = 6 ∧
    FeatureVariations.parse
        [0, 1, 0, 0, 0, 0, 0, 1, 0, 0, 0, 2, 0, 0, 0, 3] =
      some ⟨[0, 0, 0, 2, 0, 0]⟩ ∧
    FeatureVariations.get ⟨[0, 0, 0, 2, 0, 0]⟩ 0 = none := by
  refine ⟨rfl, rfl, rfl⟩

/-- C5: `LangSysTable::parse` rejects the whole table (returns `none`)
whenever the leading reserved 2-byte lookup-order offset is non-zero,
regardless of everything that follows; when it is zero, parsing proceeds
and a required_feature_index of 0xFFFF is mapped to absent in any
successful parse. -/
theorem langSysTable_reserved_field_gate (data : List Nat) (v : Nat)
    (h0 : readU16 data 0 = some v) :
    (v ≠ 0 → LangSysTable.parse data = none) ∧
    (v = 0 → readU16 data 2 = some 0xFFFF →
      ∀ t, LangSysTable.parse data = some t →
        t.required_feature_index = none) := by
  constructor
  · intro hv
    unfold LangSysTable.parse readOptOffset16
    rw [h0]
    simp [hv]
  · intro hv0 h2 t ht
    subst hv0
    unfold LangSysTable.parse readOptOffset16 at ht
    rw [h0, h2] at ht
    simp only [Option.map_some', reduceIte, Option.isSome_none,
      Bool.false_eq_true, if_false] at ht
    rcases h4 : readU16 data 4 with _ | count
    · simp only [h4] at ht
      exact Option.noConfusion ht
    · simp only [h4] at ht
      rcases h6 : readArrayU16 data 6 count with _ | arr
      · simp only [h6] at ht
        exact Option.noConfusion ht
      · simp only [h6, Option.some.injEq] at ht
        rw [← ht]

/-- Witness for `langSysTable_reserved_field_gate`: the six bytes
`[0, 1, 0, 0, 0, 0]` carry a non-zero reserved field and are rejected;
the six bytes `[0, 0, 255, 255, 0, 0]` parse with the 0xFFFF
required-feature sentinel mapped to absent. -/
theorem langSysTable_reserved_field_gate_witness :
    LangSysTable.parse [0, 1, 0, 0, 0, 0] = none ∧
    LangSysTable.required_feature_index ⟨none, []⟩ = none := by
  constructor
  · exact (langSysTable_reserved_field_gate [0, 1, 0, 0, 0, 0] 1
      rfl).1 (by decide)
  · exact (langSysTable_reserved_field_gate [0, 0, 255, 255, 0, 0] 0
      rfl).2 rfl rfl ⟨none, []⟩ (by rfl)

/-- C6: `FeatureVariations::parse` returns `none` whenever the leading
32-bit version differs from 0x00010000, regardless of the remaining
bytes — only version 0x00010000 can yield a parsed table. -/
theorem featureVariations_version_gate (data : List Nat) (v : Nat)
    (hv : readU32 data 0 = some v) (hne : v ≠ 0x00010000) :
    FeatureVariations.parse data = none := by
  unfold FeatureVariations.parse
  rw [hv]
  simp [hne]

/-- Witness for `featureVariations_version_gate`: version 0x00010001
followed by a well-formed count of zero is still rejected. -/
theorem featureVariations_version_gate_witness :
    FeatureVariations.parse [0, 1, 0, 1, 0, 0, 0, 0] = none :=
  featureVariations_version_gate [0, 1, 0, 1, 0, 0, 0, 0] 0x00010001
    rfl (by decide)

/-- C7: the root table's parse returns `none` for every buffer whose
leading 32-bit version is neither 0x00010000 nor 0x00010001; only those
two versions proceed past the version gate. -/
theorem gsub_table_version_gate (data : List Nat) (v : Nat)
    (hv : readU32 data 0 = some v)
    (h1 : v ≠ 0x00010000) (h2 : v ≠ 0x00010001) :
    Gsub.Table.parse data = none := by
  unfold Gsub.Table.parse
  rw [hv]
  simp [h1, h2]

/-- Witness for `gsub_table_version_gate`: version 0x00010002 is
rejected even though offset fields follow. -/
theorem gsub_table_version_gate_witness :
    Gsub.Table.parse [0, 1, 0, 2, 0, 0, 0, 0, 0, 0] = none :=
  gsub_table_version_gate [0, 1, 0, 2, 0, 0, 0, 0, 0, 0] 0x00010002
    rfl (by decide) (by decide)

/-- C10: `LookupTable::parse` reads the trailing 2-byte
mark_filtering_set unconditionally after the count-prefixed subtable
offset array: given the declared count, parsing fails exactly when the
buffer is shorter than `8 + 2 * count` bytes, whatever lookup_flag
says. -/
theorem lookupTable_parse_none_iff_short (data : List Nat) (count : Nat)
    (hc : readU16 data 4 = some count) :
    LookupTable.parse data = none ↔ data.length < 8 + 2 * count := by
  have hlen6 : 4 + 2 ≤ data.length :=
    (readU16_isSome_iff data 4).mp (by rw [hc]; rfl)
  obtain ⟨t0, h0⟩ := Option.isSome_iff_exists.mp
    ((readU16_isSome_iff data 0).mpr (by omega))
  obtain ⟨t2, h2⟩ := Option.isSome_iff_exists.mp
    ((readU16_isSome_iff data 2).mpr (by omega))
  unfold LookupTable.parse
  simp only [h0, h2, hc]
  by_cases harr : 6 + 2 * count ≤ data.length
  · have harr' : readArrayU16 data 6 count =
        some (decodeU16List ((data.drop 6).take (2 * count))) := by
      unfold readArrayU16 readBytes
      rw [if_pos (by omega)]
      rfl
    rw [harr']
    by_cases hmark : 6 + 2 * count + 2 ≤ data.length
    · obtain ⟨m, hm⟩ := Option.isSome_iff_exists.mp
        ((readU16_isSome_iff data (6 + 2 * count)).mpr (by omega))
      rw [hm]
      simp only [Option.some.injEq]
      constructor
      · intro h
        exact absurd h (by simp)
      · intro h
        omega
    · have hnone : readU16 data (6 + 2 * count) = none :=
        (readU16_eq_none_iff _ _).mpr (by omega)
      rw [hnone]
      simp only [true_iff]
      omega
  · have hnone : readArrayU16 data 6 count = none := by
      unfold readArrayU16 readBytes
      rw [if_neg (by omega)]
      rfl
    rw [hnone]
    simp only [true_iff]
    omega

/-- Witness for `lookupTable_parse_none_iff_short`: an 8-byte buffer
declaring one subtable offset lacks the 2 trailing bytes for
mark_filtering_set and fails to parse. -/
theorem lookupTable_parse_none_iff_short_witness :
    LookupTable.parse [0, 1, 0, 0, 0, 1, 0, 4] = none :=
  (lookupTable_parse_none_iff_short [0, 1, 0, 0, 0, 1, 0, 4] 1
    rfl).mpr (by decide)

theorem sliceFrom_eq_some (data : List Nat) (off : Nat) (d : List Nat)
    (h : sliceFrom data off = some d) :
    off ≤ data.length ∧ d = data.drop off := by
  unfold sliceFrom at h
  by_cases hle : off ≤ data.length
  · rw [if_pos hle] at h
    injection h with h
    exact ⟨hle, h.symm⟩
  · rw [if_neg hle] at h
    exact Option.noConfusion h

/-- Everything that a successful `Gsub.Table::parse` guarantees: a
recognized version, three readable mandatory offsets each within the
buffer with a succeeding sub-parser, no feature variations for the base
version, and for version 0x00010001 a resolved in-bounds
feature-variations offset with a succeeding sub-parser whenever the
offset field is non-zero. -/
theorem gsub_parse_some_implies (data : List Nat) (t : Gsub.Table)
    (hp : Gsub.Table.parse data = some t) :
    ∃ v slo flo llo,
      readU32 data 0 = some v ∧
      (v = 0x00010000 ∨ v = 0x00010001) ∧
      readU16 data 4 = some slo ∧
      readU16 data 6 = some flo ∧
      readU16 data 8 = some llo ∧
      slo ≤ data.length ∧
      (ScriptListTable.parse (data.drop slo)).isSome ∧
      flo ≤ data.length ∧
      (FeatureListTable.parse (data.drop flo)).isSome ∧
      llo ≤ data.length ∧
      (LookupListTable.parse (data.drop llo)).isSome ∧
      (v = 0x00010000 → t.feature_variations = none) ∧
      (v = 0x00010001 → ∀ fvo, readU16 data 10 = some fvo → fvo ≠ 0 →
        fvo ≤ data.length ∧
        (FeatureVariations.parse (data.drop fvo)).isSome) := by
  unfold Gsub.Table.parse at hp
  rcases hv : readU32 data 0 with _ | v
  · rw [hv] at hp
    exact Option.noConfusion hp
  · simp only [hv] at hp
    by_cases hvok : v = 0x00010000 ∨ v = 0x00010001
    · rw [if_neg (not_not_intro hvok)] at hp
      rcases h4 : readU16 data 4 with _ | slo
      · simp only [h4] at hp
        exact Option.noConfusion hp
      · simp only [h4] at hp
        rcases h6 : readU16 data 6 with _ | flo
        · simp only [h6] at hp
          exact Option.noConfusion hp
        · simp only [h6] at hp
          rcases h8 : readU16 data 8 with _ | llo
          · simp only [h8] at hp
            exact Option.noConfusion hp
          · simp only [h8] at hp
            rcases hfo : (if v > 0x00010000 then readOptOffset16 data 10
                else some none) with _ | fvOpt
            · rw [hfo] at hp
              exact Option.noConfusion hp
            · simp only [hfo] at hp
              rcases hs1 : sliceFrom data slo with _ | d1
              · simp only [hs1] at hp
                exact Option.noConfusion hp
              · simp only [hs1] at hp
                obtain ⟨hsle, hd1⟩ := sliceFrom_eq_some data slo d1 hs1
                rcases hS : ScriptListTable.parse d1 with _ | slt
                · simp only [hS] at hp
                  exact Option.noConfusion hp
                · simp only [hS] at hp
                  rcases hs2 : sliceFrom data flo with _ | d2
                  · simp only [hs2] at hp
                    exact Option.noConfusion hp
                  · simp only [hs2] at hp
                    obtain ⟨hfle, hd2⟩ := sliceFrom_eq_some data flo d2 hs2
                    rcases hF : FeatureListTable.parse d2 with _ | flt
                    · simp only [hF] at hp
                      exact Option.noConfusion hp
                    · simp only [hF] at hp
                      rcases hs3 : sliceFrom data llo with _ | d3
                      · simp only [hs3] at hp
                        exact Option.noConfusion hp
                      · simp only [hs3] at hp
                        obtain ⟨hlle, hd3⟩ := sliceFrom_eq_some data llo d3 hs3
                        rcases hL : LookupListTable.parse d3 with _ | llt
                        · simp only [hL] at hp
                          exact Option.noConfusion hp
                        · simp only [hL] at hp
                          refine ⟨v, slo, flo, llo, rfl, hvok, rfl, rfl, rfl,
                            hsle, ?_, hfle, ?_, hlle, ?_, ?_, ?_⟩
                          · rw [← hd1, hS]; rfl
                          · rw [← hd2, hF]; rfl
                          · rw [← hd3, hL]; rfl
                          · intro hv0
                            subst hv0
                            rw [if_neg (by omega)] at hfo
                            injection hfo with hfo
                            subst hfo
                            simp only at hp
                            injection hp with hp
                            rw [← hp]
                          · intro hv1 fvo h10 hne0
                            subst hv1
                            rw [if_pos (by omega)] at hfo
                            unfold readOptOffset16 at hfo
                            rw [h10] at hfo
                            simp only [Option.map_some',
                              Option.some.injEq] at hfo
                            rw [if_neg hne0] at hfo
                            subst hfo
                            simp only at hp
                            rcases hs4 : sliceFrom data fvo with _ | d4
                            · simp only [hs4] at hp
                              exact Option.noConfusion hp
                            · simp only [hs4] at hp
                              obtain ⟨hvle, hd4⟩ :=
                                sliceFrom_eq_some data fvo d4 hs4
                              rcases hV : FeatureVariations.parse d4 with _ | fv
                              · simp only [hV] at hp
                                exact Option.noConfusion hp
                              · refine ⟨hvle, ?_⟩
                                rw [← hd4, hV]
                                rfl
    · rw [if_pos hvok] at hp
      exact Option.noConfusion hp

/-- C4: parsing a root table whose 32-bit version is exactly 0x00010000
yields no feature variations, regardless of the byte content after the
three mandatory offsets — the feature-variations offset field is not
read for that version, so every successful parse carries
`feature_variations = none`. -/
theorem gsub_version_10000_no_feature_variations (data : List Nat)
    (t : Gsub.Table)
    (hv : readU32 data 0 = some 0x00010000)
    (hp : Gsub.Table.parse data = some t) :
    t.feature_variations = none := by
  obtain ⟨v, slo, flo, llo, hv', _, _, _, _, _, _, _, _, _, _, hbase, _⟩ :=
    gsub_parse_some_implies data t hp
  rw [hv] at hv'
  injection hv' with hv'
  exact hbase hv'.symm

/-- Witness for `gsub_version_10000_no_feature_variations`: a version
0x00010000 root table whose bytes 10–11 hold the non-zero value 0xABCD
still parses with no feature variations. -/
theorem gsub_version_10000_no_feature_variations_witness :
    Gsub.Table.feature_variations ⟨⟨[0, 0], []⟩, ⟨[]⟩, ⟨[]⟩, none⟩ =
      none :=
  gsub_version_10000_no_feature_variations
    [0, 1, 0, 0, 0, 12, 0, 12, 0, 12, 171, 205, 0, 0]
    ⟨⟨[0, 0], []⟩, ⟨[]⟩, ⟨[]⟩, none⟩ rfl (by rfl)

/-- C9: root-table construction is all-or-nothing — if any of the three
mandatory offsets points past the end of the buffer or its sub-parser
fails on the resolved sub-slice, or (for version 0x00010001) the
resolved non-zero feature-variations offset does, then `Table::parse`
returns `none` and no partial aggregate is produced. -/
theorem gsub_parse_all_or_nothing (data : List Nat) (slo flo llo : Nat)
    (h4 : readU16 data 4 = some slo)
    (h6 : readU16 data 6 = some flo)
    (h8 : readU16 data 8 = some llo)
    (hbad :
      data.length < slo ∨
      ScriptListTable.parse (data.drop slo) = none ∨
      data.length < flo ∨
      FeatureListTable.parse (data.drop flo) = none ∨
      data.length < llo ∨
      LookupListTable.parse (data.drop llo) = none ∨
      ∃ fvo, readU32 data 0 = some 0x00010001 ∧
        readU16 data 10 = some fvo ∧ fvo ≠ 0 ∧
        (data.length < fvo ∨
          FeatureVariations.parse (data.drop fvo) = none)) :
    Gsub.Table.parse data = none := by
  rcases hp : Gsub.Table.parse data with _ | t
  · rfl
  · exfalso
    obtain ⟨v, slo', flo', llo', hv, hvok, h4', h6', h8', hsle, hsS,
      hfle, hfS, hlle, hlS, hbase, hvar⟩ :=
      gsub_parse_some_implies data t hp
    rw [h4] at h4'
    injection h4' with h4'
    rw [h6] at h6'
    injection h6' with h6'
    rw [h8] at h8'
    injection h8' with h8'
    subst h4' h6' h8'
    rcases hbad with hb | hb | hb | hb | hb | hb |
      ⟨fvo, hb1, hb2, hb3, hb4⟩
    · omega
    · rw [hb] at hsS
      simp at hsS
    · omega
    · rw [hb] at hfS
      simp at hfS
    · omega
    · rw [hb] at hlS
      simp at hlS
    · rw [hv] at hb1
      injection hb1 with hb1
      obtain ⟨hle, hS⟩ := hvar hb1 fvo hb2 hb3
      rcases hb4 with hb4 | hb4
      · omega
      · rw [hb4] at hS
        simp at hS

/-- Witness for `gsub_parse_all_or_nothing`: a 10-byte version
0x00010000 buffer whose script-list offset 255 points past the end fails
to parse. -/
theorem gsub_parse_all_or_nothing_witness :
    Gsub.Table.parse [0, 1, 0, 0, 0, 255, 0, 0, 0, 0] = none :=
  gsub_parse_all_or_nothing [0, 1, 0, 0, 0, 255, 0, 0, 0, 0] 255 0 0
    rfl rfl rfl (Or.inl (by decide))

theorem get?_eq_some_getD (l : List Nat) (n : Nat) (h : n < l.length) :
    l.get? n = some (l.getD n 0) := by
  rw [List.getD_eq_getElem l 0 h]
  exact List.get?_eq_get h

/-- C3: on a well-formed format-1 Class Definition Table with start
glyph `S` and class array `A`, `get` returns `A[g - S]` exactly when
`S ≤ g < S + A.length` and `Class(0)` otherwise; in particular every
`g < S` is short-circuited to `Class(0)` before the subtraction. -/
theorem classDef_format1_get (S : Nat) (A : List Nat) (g : Nat)
    (extra : List Nat) (hS : S < 65536) (hN : A.length < 65536)
    (hg : g < 65536) (hA : ∀ a ∈ A, a < 65536) :
    ClassDefinitionTable.get
        ([0, 1] ++ encodeU16 S ++ encodeU16 A.length ++
          encodeU16List A ++ extra) g =
      if S ≤ g ∧ g < S + A.length then A.getD (g - S) 0 else 0 := by
  have hdata : [0, 1] ++ encodeU16 S ++ encodeU16 A.length ++
      encodeU16List A ++ extra =
      0 :: 1 :: (S / 256) :: (S % 256) :: (A.length / 256) ::
        (A.length % 256) :: (encodeU16List A ++ extra) := by
    simp [encodeU16]
  rw [hdata]
  unfold ClassDefinitionTable.get ClassDefinitionTable.getImpl
  have h0 : readU16 (0 :: 1 :: (S / 256) :: (S % 256) ::
      (A.length / 256) :: (A.length % 256) ::
      (encodeU16List A ++ extra)) 0 = some 1 := rfl
  have h2 : readU16 (0 :: 1 :: (S / 256) :: (S % 256) ::
      (A.length / 256) :: (A.length % 256) ::
      (encodeU16List A ++ extra)) 2 = some S := by
    show some (S / 256 * 256 + S % 256) = some S
    simp only [Option.some.injEq]
    omega
  have h4 : readU16 (0 :: 1 :: (S / 256) :: (S % 256) ::
      (A.length / 256) :: (A.length % 256) ::
      (encodeU16List A ++ extra)) 4 = some A.length := by
    show some (A.length / 256 * 256 + A.length % 256) = some A.length
    simp only [Option.some.injEq]
    omega
  have harr : readArrayU16 (0 :: 1 :: (S / 256) :: (S % 256) ::
      (A.length / 256) :: (A.length % 256) ::
      (encodeU16List A ++ extra)) 6 A.length = some A := by
    unfold readArrayU16 readBytes
    rw [if_pos (by simp [encodeU16List_length]; omega)]
    show some (decodeU16List
      ((encodeU16List A ++ extra).take (2 * A.length))) = some A
    rw [← encodeU16List_length A, List.take_left,
      decodeU16List_encodeU16List]
  simp only [h0, h2, h4, harr, reduceIte]
  by_cases hgS : g < S
  · rw [if_pos hgS, if_neg (by omega)]
    rfl
  · rw [if_neg hgS]
    by_cases hlt : g - S < A.length
    · rw [get?_eq_some_getD A (g - S) hlt, if_pos (by omega)]
      rfl
    · rw [List.get?_eq_none.mpr (by omega), if_neg (by omega)]
      rfl

/-- Witness for `classDef_format1_get`: start glyph 5 with class array
`[7, 9]` — glyph 6 maps to class 9, glyph 4 (below the start) and glyph
7 (past the array) both map to class 0. -/
theorem classDef_format1_get_witness :
    ClassDefinitionTable.get
        ([0, 1] ++ encodeU16 5 ++ encodeU16 2 ++
          encodeU16List [7, 9] ++ []) 6 = 9 ∧
    ClassDefinitionTable.get
        ([0, 1] ++ encodeU16 5 ++ encodeU16 2 ++
          encodeU16List [7, 9] ++ []) 4 = 0 := by
  constructor
  · have h := classDef_format1_get 5 [7, 9] 6 [] (by decide) (by decide)
      (by decide) (by decide)
    simpa using h
  · have h := classDef_format1_get 5 [7, 9] 4 [] (by decide) (by decide)
      (by decide) (by decide)
    simpa using h

/-- C8: on a well-formed format-2 Coverage Table with range records `R`,
`contains g` returns normally (no panic) with the result of a linear
scan of `R` in array order, and that result is true exactly when some
record's inclusive range `start ≤ g ≤ end` contains `g` — independent of
any sortedness of `R`, and a record with start above end can never
match. -/
theorem coverage_format2_contains (R : List RangeRecord) (g : Nat)
    (extra : List Nat) (hR : R.length < 65536) (hg : g < 65536)
    (hb : ∀ r ∈ R, r.start_glyph_id < 65536 ∧ r.end_glyph_id < 65536 ∧
      r.value < 65536) :
    CoverageTable.contains
        ([0, 2] ++ encodeU16 R.length ++ encodeRangeRecords R ++ extra)
        g =
      some (R.any (fun r => r.containsGlyph g)) ∧
    (R.any (fun r => r.containsGlyph g) = true ↔
      ∃ r ∈ R, r.start_glyph_id ≤ g ∧ g ≤ r.end_glyph_id) := by
  constructor
  · have hdata : [0, 2] ++ encodeU16 R.length ++ encodeRangeRecords R ++
        extra =
        0 :: 2 :: (R.length / 256) :: (R.length % 256) ::
          (encodeRangeRecords R ++ extra) := by
      simp [encodeU16]
    rw [hdata]
    unfold CoverageTable.contains
    have h0 : readU16 (0 :: 2 :: (R.length / 256) :: (R.length % 256) ::
        (encodeRangeRecords R ++ extra)) 0 = some 2 := rfl
    have h2 : readU16 (0 :: 2 :: (R.length / 256) :: (R.length % 256) ::
        (encodeRangeRecords R ++ extra)) 2 = some R.length := by
      show some (R.length / 256 * 256 + R.length % 256) = some R.length
      simp only [Option.some.injEq]
      omega
    have harr : readArrayRangeRecords
        (0 :: 2 :: (R.length / 256) :: (R.length % 256) ::
          (encodeRangeRecords R ++ extra)) 4 R.length = some R := by
      unfold readArrayRangeRecords readBytes
      rw [if_pos (by simp [encodeRangeRecords_length]; omega)]
      show some (decodeRangeRecords
        ((encodeRangeRecords R ++ extra).take (6 * R.length))) = some R
      rw [← encodeRangeRecords_length R, List.take_left,
        decodeRangeRecords_encodeRangeRecords]
    simp only [h0, h2, harr, reduceIte]
    rw [if_neg (by decide)]
  · rw [List.any_eq_true]
    simp only [RangeRecord.containsGlyph, Bool.and_eq_true,
      decide_eq_true_eq]

/-- Witness for `coverage_format2_contains`: the single range 3–5 covers
glyph 4, and the malformed reversed range 5–3 covers nothing. -/
theorem coverage_format2_contains_witness :
    CoverageTable.contains
        ([0, 2] ++ encodeU16 1 ++ encodeRangeRecords [⟨3, 5, 1⟩] ++ [])
        4 = some true ∧
    CoverageTable.contains
        ([0, 2] ++ encodeU16 1 ++ encodeRangeRecords [⟨5, 3, 1⟩] ++ [])
        4 = some false := by
  constructor
  · have h := (coverage_format2_contains [⟨3, 5, 1⟩] 4 [] (by decide)
      (by decide) (by decide)).1
    simp only [List.length_singleton] at h
    rw [h]
    decide
  · have h := (coverage_format2_contains [⟨5, 3, 1⟩] 4 [] (by decide)
      (by decide) (by decide)).1
    simp only [List.length_singleton] at h
    rw [h]
    decide

end TtfParser
